import Mathlib

/-!
Verification development for the yql streaming SQL engine.

The definitions below are a shallow embedding of the repository's code:

* `src/libs/core/src/execution/streams/aggregate.rs` — the windowed, grouped
  streaming aggregate operator (`AggregateManager` and `create_aggregate_stream`);
* `src/libs/core/src/sql/parser.rs` — the nom-based SQL expression parser;
* `src/libs/stream/src/stream.rs` — `DataStream::try_new` checkpoint restore;
* `src/libs/dataset/src/dataset/csv_reader.rs` — CSV schema inference.

Machine integers (Rust `i64`, `usize`) are modelled as `Int`/`Nat`; all inputs
considered stay far from the 64-bit boundaries, so wrap-around is irrelevant.
Fallible Rust code (`Result`, panics such as out-of-bounds indexing) is modelled
with `Option`/`Except`.  Parts of the repository that are referenced by the
files above but whose sources are not in `src/` (the columnar array library,
`PhysicalExpr`, `DataSetExt::group_by_window`/`group_by_exprs`, the
`CheckPointBarrier`) are modelled from the specification and are marked
`Modelled from the spec:` in their doc comments.
-/

namespace Yql

/-- Association-list lookup keyed by decidable equality; models map `get`. -/
def alookup {α β : Type} [DecidableEq α] : List (α × β) → α → Option β
  | [], _ => none
  | p :: t, k => if p.1 = k then some p.2 else alookup t k

/-- Association-list insert-or-replace; models hash-map `insert` (an existing
key keeps its position, a new key is appended, matching insertion-order
iteration of the modelled map). -/
def aupsert {α β : Type} [DecidableEq α] : List (α × β) → α → β → List (α × β)
  | [], k, v => [(k, v)]
  | p :: t, k, v => if p.1 = k then (k, v) :: t else p :: aupsert t k v

/-- Ordered-map insert-or-replace keyed by `Int`; models `BTreeMap::insert`
(the windows map of the aggregate manager iterates in ascending key order). -/
def insertSorted {β : Type} : List (Int × β) → Int → β → List (Int × β)
  | [], k, v => [(k, v)]
  | p :: t, k, v =>
      if k < p.1 then (k, v) :: p :: t
      else if k = p.1 then (k, v) :: t
      else p :: insertSorted t k v

/-- Modelled from the spec: `DataType` is a tagged variant over the primitive
column types (the `Timestamp(unit)` payload is unused by everything the claims
touch, so the unit parameter is dropped). The source of the Rust enum (the
array library) is not under `src/`. -/
inductive DataType where
  | Null
  | Int8
  | Int16
  | Int32
  | Int64
  | Float32
  | Float64
  | Boolean
  | Timestamp
  | String
deriving DecidableEq, Repr

/-- Modelled from the spec: `Scalar` is the value form of one cell, a tagged
variant mirroring `DataType`.  Float payloads are kept as opaque 64-bit
patterns (`Nat`) because floating-point values have no decidable structural
equality in the embedding and no claim computes with them; the grouped-key
hash/equality of the source is structural, which the opaque pattern preserves. -/
inductive Scalar where
  | Null
  | Int8 (v : Int)
  | Int16 (v : Int)
  | Int32 (v : Int)
  | Int64 (v : Int)
  | Float32 (bits : Nat)
  | Float64 (bits : Nat)
  | Boolean (v : Bool)
  | Timestamp (v : Int)
  | String (v : String)
deriving DecidableEq, Repr

/-- Modelled from the spec: a `GroupedKey` is an ordered tuple of scalars, one
per group expression, with structural equality. -/
abbrev GroupedKey := List Scalar

/-- Does a scalar carry exactly the tag demanded by a field's data type?
This mirrors the per-variant pattern matches of `append_primitive_value!` in
`aggregate.rs` (lines 24-36): only an exactly matching tag is kept, anything
else becomes a null slot. -/
def matchTag (dt : DataType) (s : Scalar) : Bool :=
  match dt, s with
  | DataType.Int8, Scalar.Int8 _ => true
  | DataType.Int16, Scalar.Int16 _ => true
  | DataType.Int32, Scalar.Int32 _ => true
  | DataType.Int64, Scalar.Int64 _ => true
  | DataType.Float32, Scalar.Float32 _ => true
  | DataType.Float64, Scalar.Float64 _ => true
  | DataType.Boolean, Scalar.Boolean _ => true
  | DataType.Timestamp, Scalar.Timestamp _ => true
  | DataType.String, Scalar.String _ => true
  | _, _ => false

/-- Does a cell conform to a column's declared type (a `Null` scalar is a null
slot and conforms to every column type)?  Used by the `DataSet` constructor
invariant from the spec (§3). -/
def cellConforms (dt : DataType) (s : Scalar) : Bool :=
  match s with
  | Scalar.Null => true
  | _ => matchTag dt s

/-- Modelled from the spec: a `DataSet` is a schema together with one column of
scalars per schema field; every column shares one row count. -/
structure DataSet where
  schema : List DataType
  columns : List (List Scalar)
deriving DecidableEq, Repr

/-- Number of rows of a dataset (all columns share it by the `try_new`
invariant). -/
def DataSet.numRows (ds : DataSet) : Nat :=
  (ds.columns.head?.map List.length).getD 0

/-- Modelled from the spec: `DataSet::try_new` checks the invariant
`columns.len() == schema.fields().len()`, one shared row count, and per-column
type conformance; it fails otherwise. -/
def DataSet.try_new (schema : List DataType) (cols : List (List Scalar)) :
    Option DataSet :=
  if schema.length = cols.length
      ∧ cols.all (fun c => c.length = (cols.head?.map List.length).getD 0)
      ∧ (schema.zip cols).all (fun p => p.2.all (cellConforms p.1))
  then some ⟨schema, cols⟩ else none

/-- Row selection: keep the rows with the given indices, in the given order,
in every column.  Models taking a sub-dataset of the grouped rows. -/
def DataSet.selectRows (ds : DataSet) (idxs : List Nat) : DataSet :=
  ⟨ds.schema, ds.columns.map (fun c => idxs.filterMap (fun i => c.get? i))⟩

/-- Modelled from the spec: serialized per-expression state (`ExprState` in the
source), an opaque byte vector. -/
abbrev ExprState := List Nat

/-- Injective byte encoding of an integer, standing in for the serialization
an expression applies to its internal accumulator. -/
def encodeInt : Int → List Nat
  | Int.ofNat n => [0, n]
  | Int.negSucc n => [1, n]

/-- Decoder inverse to `encodeInt`; fails on malformed bytes. -/
def decodeInt : List Nat → Option Int
  | [0, n] => some (Int.ofNat n)
  | [1, n] => some (Int.negSucc n)
  | _ => none

/-- Modelled from the spec: the behaviour of a compiled expression.  The claims
exercise a stateful `count` aggregate, a stateful integer `sum` aggregate and a
stateless column reference; this is the fragment of the expression evaluator
the aggregate operator needs. -/
inductive ExprKind where
  | count
  | sumInt (colIdx : Nat)
  | col (colIdx : Nat)
deriving DecidableEq, Repr

/-- Modelled from the spec: a `PhysicalExpr` is a bound expression together
with its internal per-call state cell (`acc`, the running aggregate value;
scalar expressions keep it untouched). -/
structure PhysicalExpr where
  kind : ExprKind
  acc : Int
deriving DecidableEq, Repr

/-- Modelled from the spec: `PhysicalExpr::save_state` serializes the internal
state cell. -/
def PhysicalExpr.save_state (e : PhysicalExpr) : ExprState :=
  encodeInt e.acc

/-- Modelled from the spec: `PhysicalExpr::load_state` restores the internal
state cell from bytes, failing on malformed bytes. -/
def PhysicalExpr.load_state (e : PhysicalExpr) (s : ExprState) :
    Option PhysicalExpr :=
  (decodeInt s).map (fun a => { e with acc := a })

/-- Running prefix sums starting from an accumulator. -/
def runningSums (a : Int) : List Int → List Int
  | [] => []
  | x :: xs => (a + x) :: runningSums (a + x) xs

/-- Modelled from the spec: `PhysicalExpr::eval` evaluates the expression over
a dataset, returning the updated expression (its state cell advances for
aggregates) and an output array whose last cell is the updated running result.
Failure models a runtime evaluation error (missing column, bad cast). -/
def PhysicalExpr.eval (e : PhysicalExpr) (ds : DataSet) :
    Option (PhysicalExpr × List Scalar) :=
  match e.kind with
  | ExprKind.count =>
      let n := ds.numRows
      some ({ e with acc := e.acc + n },
        (List.range n).map (fun i => Scalar.Int64 (e.acc + (i + 1))))
  | ExprKind.sumInt j => do
      let colv ← ds.columns.get? j
      let ints ← colv.mapM (fun s =>
        match s with
        | Scalar.Int64 v => some v
        | _ => none)
      pure ({ e with acc := e.acc + ints.foldl (· + ·) 0 },
        (runningSums e.acc ints).map Scalar.Int64)
  | ExprKind.col j =>
      (ds.columns.get? j).map (fun c => (e, c))

/-- Modelled from the spec: the window policy.  The claims only exercise
`Fixed` and `Sliding`; the calendar-aligned `Period` windows are outside every
claim and are omitted from the model. -/
inductive Window where
  | Fixed (length : Int)
  | Sliding (length interval : Int)
deriving DecidableEq, Repr

/-- Modelled from the spec (§4.4 window assignment table): the set of
`(start, end)` windows a timestamp belongs to.  `Fixed{L}` gives
`start = (t/L)*L` with the systems-language truncating division; `Sliding{L,I}`
gives every `start = k*I` with `start ≤ t < start + L`, ascending. -/
def windowsOf (w : Window) (t : Int) : List (Int × Int) :=
  match w with
  | Window.Fixed len => [(Int.tdiv t len * len, Int.tdiv t len * len + len)]
  | Window.Sliding len interval =>
      (((List.range ((Int.tdiv len interval).toNat + 1)).map (fun j =>
          let s := (Int.tdiv t interval - Int.ofNat j) * interval
          (s, s + len))).filter
        (fun p => decide (p.1 ≤ t) && decide (t < p.1 + len))).reverse

/-- Insert a row index under its `(start, end)` window key, keeping the list
sorted by start time (the order the window map iterates in). -/
def winsert : List ((Int × Int) × List Nat) → (Int × Int) → Nat →
    List ((Int × Int) × List Nat)
  | [], k, i => [(k, [i])]
  | p :: t, k, i =>
      if k.1 < p.1.1 then (k, [i]) :: p :: t
      else if k = p.1 then (p.1, p.2 ++ [i]) :: t
      else p :: winsert t k i

/-- Modelled from the spec: `DataSetExt::group_by_window` — read the event time
of each row from the time column (rows whose time cell is not a `Timestamp`
are dropped), assign each row to its windows, and partition the dataset into
one sub-dataset per `(start, end)` window.  A missing time column is an
error. -/
def groupByWindow (time_idx : Nat) (w : Window) (ds : DataSet) :
    Option (List (Int × Int × DataSet)) := do
  let timeCol ← ds.columns.get? time_idx
  let groups := (List.range ds.numRows).foldl
    (fun acc i =>
      match timeCol.get? i with
      | some (Scalar.Timestamp t) =>
          (windowsOf w t).foldl (fun acc k => winsert acc k i) acc
      | _ => acc)
    []
  pure (groups.map (fun p => (p.1.1, p.1.2, ds.selectRows p.2)))

/-- Evaluate a list of expressions in sequence over one dataset, threading the
updated expression states, and collect the result arrays. -/
def evalAll : List PhysicalExpr → DataSet →
    Option (List PhysicalExpr × List (List Scalar))
  | [], _ => some ([], [])
  | e :: es, ds => do
      let (e', a) ← e.eval ds
      let (es', arrs) ← evalAll es ds
      pure (e' :: es', a :: arrs)

/-- Insert a row index under its grouped key, keeping first-occurrence key
order (insertion-order iteration of the modelled hash map). -/
def kinsert : List (GroupedKey × List Nat) → GroupedKey → Nat →
    List (GroupedKey × List Nat)
  | [], k, i => [(k, [i])]
  | p :: t, k, i =>
      if p.1 = k then (p.1, p.2 ++ [i]) :: t
      else p :: kinsert t k i

/-- Modelled from the spec: `DataSetExt::group_by_exprs` — evaluate every
group expression over the dataset (their states are threaded, matching the
`&mut` receiver), build the per-row `GroupedKey` from the per-expression
result arrays, and partition the rows into one sub-dataset per key.  It is an
error for a result array not to cover every row. -/
def groupByExprs (exprs : List PhysicalExpr) (ds : DataSet) :
    Option (List PhysicalExpr × List (GroupedKey × DataSet)) := do
  let (exprs', arrs) ← evalAll exprs ds
  let n := ds.numRows
  let keys ← (List.range n).mapM (fun i => arrs.mapM (fun a => a.get? i))
  let groups := (keys.enum).foldl (fun acc p => kinsert acc p.2 p.1) []
  pure (exprs', groups.map (fun p => (p.1, ds.selectRows p.2)))

/-- Per-group aggregate record (`AggregateState` in `aggregate.rs` lines
46-49): the group's own clones of the aggregate expressions plus the vector of
running scalar results. -/
structure AggregateState where
  aggr_exprs : List PhysicalExpr
  values : List Scalar
deriving DecidableEq, Repr

/-- One open window (`WindowState` in `aggregate.rs` lines 51-56): start and
end times plus the per-group children map (insertion-ordered association
list standing in for `AHashMap`). -/
structure WindowState where
  start_time : Int
  end_time : Int
  children : List (GroupedKey × AggregateState)
deriving DecidableEq, Repr

/-- The aggregate operator's manager (`AggregateManager` in `aggregate.rs`
lines 58-65).  `windows` is the `BTreeMap` ordered by start time, modelled as
an association list kept sorted by key. -/
structure AggregateManager where
  schema : List DataType
  group_exprs : List PhysicalExpr
  aggr_exprs : List PhysicalExpr
  window : Window
  time_idx : Nat
  windows : List (Int × WindowState)
deriving DecidableEq, Repr

/-- Update each aggregate expression and its stored running value in lockstep
(`aggregate.rs` lines 150-157): evaluate the expression over the sub-dataset
and store the array's last cell, `array.scalar_value(array.len() - 1)`.  An
empty result array makes the index underflow in the source (a panic), modelled
as `none`. -/
def updateValues (ds : DataSet) :
    List PhysicalExpr → List Scalar → Option (List PhysicalExpr × List Scalar)
  | [], vs => some ([], vs)
  | _ :: _, [] => some ([], [])
  | e :: es, _ :: vs => do
      let (e', arr) ← e.eval ds
      let last ← arr.getLast?
      let (es', vs') ← updateValues ds es vs
      pure (e' :: es', last :: vs')

/-- One grouped sub-batch (`AggregateManager::process_dataset`, `aggregate.rs`
lines 127-160): find or create the window state at `start`, find or create the
group's `AggregateState` (fresh groups get a clone of the manager's aggregate
expression templates and all-`Null` values), then update every expression and
stored value. -/
def AggregateManager.process_dataset (m : AggregateManager)
    (start endT : Int) (key : GroupedKey) (ds : DataSet) :
    Option AggregateManager := do
  let w := (alookup m.windows start).getD
    { start_time := start, end_time := endT, children := [] }
  let st := (alookup w.children key).getD
    { aggr_exprs := m.aggr_exprs
      values := List.replicate m.aggr_exprs.length Scalar.Null }
  let (es, vs) ← updateValues ds st.aggr_exprs st.values
  let w' := { w with
    children := aupsert w.children key { aggr_exprs := es, values := vs } }
  pure { m with windows := insertSorted m.windows start w' }

/-- The ingestion phase of `AggregateManager::aggregate` (`aggregate.rs` lines
167-176): group the batch by window, then by group expressions, and feed every
`(window, key, sub-dataset)` through `process_dataset`, threading the group
expression states. -/
def AggregateManager.ingest (m : AggregateManager) (ds : DataSet) :
    Option AggregateManager := do
  let wgs ← groupByWindow m.time_idx m.window ds
  wgs.foldlM
    (fun m wg => do
      let (gexprs, groups) ← groupByExprs m.group_exprs wg.2.2
      let m := { m with group_exprs := gexprs }
      groups.foldlM (fun m kv => m.process_dataset wg.1 wg.2.1 kv.1 kv.2) m)
    m

/-- The drain loop of `AggregateManager::aggregate` (`aggregate.rs` lines
178-190): repeatedly look at the smallest start time; while the watermark is
strictly greater than that window's end time, remove it and collect it;
stop at the first window that is not expired. -/
def drainWindows (wm : Int) :
    List (Int × WindowState) → List WindowState × List (Int × WindowState)
  | [] => ([], [])
  | p :: rest =>
      if wm > p.2.end_time then
        let r := drainWindows wm rest
        (p.2 :: r.1, r.2)
      else ([], p :: rest)

/-- Column materialization for one completed window (`aggregate.rs` lines
192-268): for each output field in schema order, walk the children map once,
keeping a stored scalar only when its tag matches the field's declared type
and appending a null slot otherwise; a `Null` field produces an all-null
column without reading the stored values; finally append the `start_time`
timestamp column and build the dataset. -/
def buildOutput (schema : List DataType) (aggrLen : Nat) (w : WindowState) :
    Option DataSet := do
  let cols ← (List.range aggrLen).mapM (fun index => do
    let dt ← schema.get? index
    match dt with
    | DataType.Null => pure (List.replicate w.children.length Scalar.Null)
    | _ => w.children.mapM (fun c => do
        let v ← c.2.values.get? index
        pure (if matchTag dt v then v else Scalar.Null)))
  DataSet.try_new schema
    (cols ++ [w.children.map (fun _ => Scalar.Timestamp w.start_time)])

/-- Embedding of `AggregateManager::aggregate` (`aggregate.rs` lines 162-272): ingest the
batch, then — only when the batch carries a watermark — drain the expired
windows in ascending start order and build one output dataset per drained
window. -/
def AggregateManager.aggregate (m : AggregateManager) (ds : DataSet)
    (wm : Option Int) : Option (AggregateManager × List DataSet) :=
  match m.ingest ds with
  | none => none
  | some m₁ =>
    let dr := match wm with
      | some w => drainWindows w m₁.windows
      | none => ([], m₁.windows)
    match dr.1.mapM (buildOutput m₁.schema m₁.aggr_exprs.length) with
    | none => none
    | some outs => some ({ m₁ with windows := dr.2 }, outs)

/-- One saved group inside a saved window (`aggregate.rs` line 38):
`(key, per-expression states, running values)`. -/
abbrev SavedGroup := GroupedKey × List ExprState × List Scalar

instance : DecidableEq SavedGroup := inferInstance

/-- One saved window in a checkpoint blob (`SavedWindow` in `aggregate.rs`
line 38): `(start, end, groups)`. -/
abbrev SavedWindow := Int × Int × List SavedGroup

instance : DecidableEq SavedWindow := inferInstance

/-- The aggregate node's checkpoint state (`SavedState` in `aggregate.rs`
lines 40-44).  The `bincode` byte serialization of the external crate is
modelled as the identity on this structured value. -/
structure SavedState where
  group_exprs : List ExprState
  windows : List SavedWindow
deriving DecidableEq

/-- Load a list of expressions from a list of saved states in lockstep
(`iter_mut().zip(saved)` in `aggregate.rs` lines 71-73 and 86-88): the zip
stops at the shorter list, so surplus expressions keep their state and surplus
saved states are ignored. -/
def loadExprs : List PhysicalExpr → List ExprState → Option (List PhysicalExpr)
  | es, [] => some es
  | [], _ => some []
  | e :: es, d :: ds => do
      let e' ← e.load_state d
      let es' ← loadExprs es ds
      pure (e' :: es')

/-- Rebuild the children map of one saved window (`aggregate.rs` lines 81-90):
each group gets a clone of the manager's aggregate expression templates, loads
every saved expression state into it, takes the saved running values verbatim,
and is inserted into the (initially empty) children map. -/
def loadGroups (template : List PhysicalExpr) :
    List (GroupedKey × AggregateState) →
    List (GroupedKey × List ExprState × List Scalar) →
    Option (List (GroupedKey × AggregateState))
  | acc, [] => some acc
  | acc, g :: gs => do
      let aexprs ← loadExprs template g.2.1
      loadGroups template (aupsert acc g.1 ⟨aexprs, g.2.2⟩) gs

/-- Rebuild and insert every saved window (`aggregate.rs` lines 75-92): the
window state's start time is the saved key, its end time the saved end, and it
is inserted into the manager's windows map under the saved start key. -/
def loadWindows : AggregateManager → List SavedWindow → Option AggregateManager
  | m, [] => some m
  | m, w :: ws => do
      let children ← loadGroups m.aggr_exprs [] w.2.2
      loadWindows
        { m with windows :=
            insertSorted m.windows w.1 ⟨w.1, w.2.1, children⟩ } ws

/-- Embedding of `AggregateManager::load_state` (`aggregate.rs` lines 68-94): restore the
group expression states, then rebuild every saved window.  Any malformed
per-expression state makes the whole load fail. -/
def AggregateManager.load_state (m : AggregateManager) (s : SavedState) :
    Option AggregateManager := do
  let g ← loadExprs m.group_exprs s.group_exprs
  loadWindows { m with group_exprs := g } s.windows

/-- Embedding of `AggregateManager::save_state` (`aggregate.rs` lines 96-125): serialize
the group expression states and, per window in ascending start order, the end
time and every group's `(key, expression states, running values)`. -/
def AggregateManager.save_state (m : AggregateManager) : SavedState :=
  { group_exprs := m.group_exprs.map PhysicalExpr.save_state
    windows := m.windows.map (fun p =>
      (p.1, p.2.end_time, p.2.children.map (fun c =>
        (c.1, c.2.aggr_exprs.map PhysicalExpr.save_state, c.2.values)))) }

/-- Modelled from the spec: a checkpoint barrier (`CheckPointBarrier`, whose
source is not under `src/`): the per-node state map written by `set_state` and
the exit flag; `is_saved` checks whether a node id is already present. -/
structure Barrier where
  states : List (Nat × Option SavedState)
  isExit : Bool
deriving DecidableEq

/-- Modelled from the spec: `CheckPointBarrier::is_saved`. -/
def Barrier.is_saved (b : Barrier) (id : Nat) : Bool :=
  (alookup b.states id).isSome

/-- Modelled from the spec: `CheckPointBarrier::set_state` records bytes under
a node id. -/
def Barrier.set_state (b : Barrier) (id : Nat) (v : Option SavedState) :
    Barrier :=
  { b with states := aupsert b.states id v }

/-- An event on an operator edge (`Event` in `stream.rs` lines 20-26): a data
batch carrying the upstream watermark, or a checkpoint barrier. -/
inductive Event where
  | dataSet (wm : Option Int) (ds : DataSet)
  | createCheckPoint (b : Barrier)
deriving DecidableEq

/-- The aggregate operator's event loop (`create_aggregate_stream` in
`aggregate.rs` lines 302-321), run over a finite prefix of upstream events: a
data batch is aggregated and its outputs re-emitted under the unchanged
watermark; a barrier gets the node's state recorded when `is_saved` is false,
is forwarded, and — when its exit flag is set — breaks the loop so no further
event is yielded.  `none` models a fatal operator error ending the stream. -/
def stepBarrier (id : Nat) (m : AggregateManager) (b : Barrier) : Barrier :=
  if b.is_saved id then b else b.set_state id (some m.save_state)

/-- The loop body over a finite event prefix; `stepBarrier` above is the
barrier update of the checkpoint arm (`aggregate.rs` lines 311-313), recording
the node's serialized state under its id unless already recorded. -/
def aggStreamRun (id : Nat) : AggregateManager → List Event → Option (List Event)
  | _, [] => some []
  | m, Event.dataSet wm ds :: rest => do
      let (m', outs) ← m.aggregate ds wm
      let tail ← aggStreamRun id m' rest
      pure (outs.map (Event.dataSet wm) ++ tail)
  | m, Event.createCheckPoint b :: rest =>
      let b' := stepBarrier id m b
      if b'.isExit then some [Event.createCheckPoint b']
      else (aggStreamRun id m rest).map
        (fun tail => Event.createCheckPoint b' :: tail)

/-- Read exactly `n` bytes from a byte stream, failing on truncation. -/
def readN : Nat → List Nat → Option (List Nat × List Nat)
  | 0, bs => some ([], bs)
  | _ + 1, [] => none
  | n + 1, b :: bs => (readN n bs).map (fun p => (b :: p.1, p.2))

/-- Decode `n` `(node_id, bytes)` entries of a serialized state map, failing
on truncation. -/
def decodeEntries : Nat → List Nat → Option (List (Nat × List Nat) × List Nat)
  | 0, bs => some ([], bs)
  | n + 1, bs => do
      let (id, bs) ← match bs with
        | i :: r => some (i, r)
        | [] => none
      let (len, bs) ← match bs with
        | l :: r => some (l, r)
        | [] => none
      let (payload, bs) ← readN len bs
      let (entries, bs) ← decodeEntries n bs
      pure ((id, payload) :: entries, bs)

/-- Modelled from the spec: the `bincode` deserialization of the checkpoint
blob into the per-node state map `map<node_id, bytes>` (§6): an entry count
followed by length-prefixed entries; truncated or trailing bytes fail. -/
def decodeStateMap (bs : List Nat) : Option (List (Nat × List Nat)) := do
  let (count, bs) ← match bs with
    | c :: r => some (c, r)
    | [] => none
  let (entries, bs) ← decodeEntries count bs
  if bs.isEmpty then pure entries else none

/-- The stream configuration fragment `DataStream::try_new` consults
(`stream.rs` line 80): the optional `load_state_fn` callback, called once at
startup, yielding the persisted blob or an error. -/
structure StreamConfig where
  load_state_fn : Option (Except String (List Nat))

/-- Embedding of `DataStream::try_new_with_graceful_shutdown` (`stream.rs` lines 70-115),
restricted to its construction-time data path: call `load_state_fn` when
configured, deserialize the blob into the per-node `prev_state` map — failing
the whole construction on a deserialization error, before any operator is
built — then hand `prev_state` to the downstream pipeline constructor
(`create_stream`, abstracted as a parameter so the theorem holds for every
pipeline). -/
def DataStream.try_new {α : Type} (config : StreamConfig)
    (createStream : List (Nat × List Nat) → Except String α) :
    Except String α :=
  match config.load_state_fn with
  | some f =>
      match f with
      | Except.error e => Except.error e
      | Except.ok data =>
          match decodeStateMap data with
          | some m => createStream m
          | none => Except.error ("failed to deserialize stream state.")
  | none => createStream []

/-- Modelled from the spec: the binary operators of the expression AST
(`BinaryOperator` in `crate::expr`, whose source is not under `src/`). -/
inductive BinaryOperator where
  | Or
  | And
  | Eq
  | NotEq
  | Lt
  | LtEq
  | Gt
  | GtEq
  | Plus
  | Minus
  | Multiply
  | Divide
deriving DecidableEq, Repr

/-- Modelled from the spec: the unary operators of the expression AST. -/
inductive UnaryOperator where
  | Not
  | Neg
deriving DecidableEq, Repr

/-- Modelled from the spec: SQL literals.  The float payload keeps the matched
source text because floating-point values are outside the embedding and no
claim computes with them. -/
inductive Literal where
  | Boolean (b : Bool)
  | Float (raw : List Char)
  | Int (v : Int)
  | String (v : List Char)
deriving DecidableEq, Repr

/-- Modelled from the spec: the expression AST produced by the parser
(`Expr` in `crate::expr`). -/
inductive Expr where
  | Column (qualifier : Option (List Char)) (name : List Char)
  | Wildcard (qualifier : Option (List Char))
  | Literal (l : Literal)
  | Unary (op : UnaryOperator) (expr : Expr)
  | Binary (op : BinaryOperator) (lhs rhs : Expr)
  | Call (ns : Option (List Char)) (name : List Char) (args : List Expr)
deriving Repr

/-- Parser input: the remaining characters. -/
abbrev PIn := List Char

/-- Embedding of `nom::bytes::complete::tag`: match an exact prefix. -/
def ptag (t : PIn) (s : PIn) : Option (PIn × PIn) :=
  if s.take t.length = t then some (s.drop t.length, t) else none

/-- Embedding of `nom::bytes::complete::tag_no_case`: match a prefix case-insensitively. -/
def ptagNoCase (t : PIn) (s : PIn) : Option (PIn × PIn) :=
  if (s.take t.length).map Char.toLower = t.map Char.toLower
  then some (s.drop t.length, s.take t.length) else none

/-- Embedding of `nom::character::complete::char`: match one exact character. -/
def pchar (c : Char) (s : PIn) : Option (PIn × Char) :=
  match s with
  | x :: r => if x = c then some (r, c) else none
  | [] => none

/-- One-or-more characters satisfying a predicate (`digit1`, `alpha1`,
`alphanumeric1`). -/
def pwhile1 (p : Char → Bool) (s : PIn) : Option (PIn × PIn) :=
  let tk := s.takeWhile p
  if tk.isEmpty then none else some (s.drop tk.length, tk)

/-- The whitespace eater `sp` (`parser.rs` lines 17-19): `fold_many0` over
`one_of(" \t\n\r")`, which always succeeds and drops the maximal whitespace
prefix. -/
def spD (s : PIn) : PIn :=
  s.dropWhile (fun c => c ∈ [' ', '\t', '\n', '\r'])

/-- Embedding of `ident` (`parser.rs` lines 21-29): `recognize` of a first chunk — a
greedy alphabetic run, a single underscore or a single at-sign — followed by
the maximal run of alphanumerics and underscores; returns the matched span. -/
def identP (s : PIn) : Option (PIn × PIn) :=
  let first : Option (PIn × PIn) :=
    (pwhile1 Char.isAlpha s) <|> (ptag [ '_' ] s) <|> (ptag [ '@' ] s)
  match first with
  | none => none
  | some (s1, _) =>
      let tail := s1.takeWhile (fun c => c.isAlphanum || c = '_')
      let s2 := s1.drop tail.length
      some (s2, s.take (s.length - s2.length))

/-- Embedding of `boolean` (`parser.rs` lines 31-39): case-insensitive `true` / `false`. -/
def booleanP (s : PIn) : Option (PIn × Bool) :=
  ((ptagNoCase (("true").data) s).map (fun p => (p.1, true))) <|>
  ((ptagNoCase (("false").data) s).map (fun p => (p.1, false)))

/-- Digit run to a natural number. -/
def digitsToNat (ds : List Char) : Nat :=
  ds.foldl (fun a c => a * 10 + (c.toNat - 48)) 0

/-- Embedding of `integer` (`parser.rs` lines 41-48): an optional minus sign then one or
more digits, converted to an integer (the source `i64::from_str`; the inputs
the claims use are far from the 64-bit bounds). -/
def integerP (s : PIn) : Option (PIn × Int) :=
  let (s1, neg) :=
    match pchar '-' s with
    | some (r, _) => (r, true)
    | none => (s, false)
  (pwhile1 Char.isDigit s1).map (fun p =>
    (p.1, if neg then -(Int.ofNat (digitsToNat p.2)) else Int.ofNat (digitsToNat p.2)))

/-- Embedding of `float` (`parser.rs` lines 50-69): optional minus; either digits, a dot
and optional digits, or a dot and digits; then an optional exponent with
optional sign and digits.  The recognized span is returned.  (The source puts
a `cut` on the exponent digits, turning a missing exponent into a hard
failure; the claims' inputs never reach the exponent, so the model folds that
case into an absent exponent.) -/
def floatP (s0 : PIn) : Option (PIn × List Char) := do
  let s1 :=
    match pchar '-' s0 with
    | some (r, _) => r
    | none => s0
  let s2 ← (do
      let (sa, _) ← pwhile1 Char.isDigit s1
      let (sb, _) ← pchar '.' sa
      let sc :=
        match pwhile1 Char.isDigit sb with
        | some (r, _) => r
        | none => sb
      pure sc)
    <|> (do
      let (sa, _) ← pchar '.' s1
      let (sb, _) ← pwhile1 Char.isDigit sa
      pure sb)
  let s3 := (do
      let (sa, _) ← (pchar 'e' s2) <|> (pchar 'E' s2)
      let sb :=
        match (pchar '+' sa) <|> (pchar '-' sa) with
        | some (r, _) => r
        | none => sa
      let (sc, _) ← pwhile1 Char.isDigit sb
      pure sc).getD s2
  pure (s3, s0.take (s0.length - s3.length))

/-- The body loop of `raw_string_quoted` (`parser.rs` lines 75-101):
`fold_many0` over, in order, a nonempty run free of backslash and quote, a
doubled quote (one quote), the escapes `\\`, `\b` (the source maps it to
`\x7f`), `\r`, `\n`, `\t`, `\0`, `\Z`, and finally backslash plus any single
character taken literally.  Fuel bounds the iteration; every successful
alternative consumes input, so any fuel of at least the input length is
exact. -/
def strLoop (q : Char) : Nat → PIn → PIn × List Char
  | 0, s => (s, [])
  | fuel + 1, s =>
      let inner : Option (PIn × List Char) :=
        (pwhile1 (fun c => decide ¬ (c = '\\' ∨ c = q)) s)
        <|> ((ptag [q, q] s).map (fun p => (p.1, [q])))
        <|> ((ptag [ '\\', '\\' ] s).map (fun p => (p.1, [ '\\' ])))
        <|> ((ptag [ '\\', 'b' ] s).map (fun p => (p.1, [ '\x7f' ])))
        <|> ((ptag [ '\\', 'r' ] s).map (fun p => (p.1, [ '\r' ])))
        <|> ((ptag [ '\\', 'n' ] s).map (fun p => (p.1, [ '\n' ])))
        <|> ((ptag [ '\\', 't' ] s).map (fun p => (p.1, [ '\t' ])))
        <|> ((ptag [ '\\', '0' ] s).map (fun p => (p.1, [ Char.ofNat 0 ])))
        <|> ((ptag [ '\\', 'Z' ] s).map (fun p => (p.1, [ Char.ofNat 26 ])))
        <|> ((ptag [ '\\' ] s).bind (fun p =>
              match p.1 with
              | c :: r => some (r, [c])
              | [] => none))
      match inner with
      | some (s', piece) =>
          if s'.length < s.length then
            let (s'', acc) := strLoop q fuel s'
            (s'', piece ++ acc)
          else (s, [])
      | none => (s, [])

/-- Embedding of `raw_string_quoted` (`parser.rs` lines 71-104): a quote, the escaped body,
a closing quote. -/
def pstringQ (isSingle : Bool) (s : PIn) : Option (PIn × List Char) := do
  let q : Char := if isSingle then '\'' else '"'
  let (s1, _) ← pchar q s
  let (s2, content) := strLoop q (s1.length + 1) s1
  let (s3, _) ← pchar q s2
  pure (s3, content)

/-- Embedding of `string` (`parser.rs` lines 114-119): single-quoted before
double-quoted. -/
def pstring (s : PIn) : Option (PIn × List Char) :=
  pstringQ true s <|> pstringQ false s

/-- Embedding of `literal` (`parser.rs` lines 121-131): boolean, float, integer, string,
in that order. -/
def literalP (s : PIn) : Option (PIn × Literal) :=
  ((booleanP s).map (fun p => (p.1, Literal.Boolean p.2)))
  <|> ((floatP s).map (fun p => (p.1, Literal.Float p.2)))
  <|> ((integerP s).map (fun p => (p.1, Literal.Int p.2)))
  <|> ((pstring s).map (fun p => (p.1, Literal.String p.2)))

/-- Embedding of `name` (`parser.rs` lines 133-135): a string literal or an identifier. -/
def nameP (s : PIn) : Option (PIn × List Char) :=
  pstring s <|> identP s

/-- Embedding of `column` (`parser.rs` lines 137-161): qualified column, plain column,
qualified wildcard, wildcard — tried in that order. -/
def columnP (s : PIn) : Option (PIn × Expr) :=
  (do
    let (s1, q) ← nameP s
    let (s2, _) ← pchar '.' s1
    let (s3, n) ← nameP s2
    pure (s3, Expr.Column (some q) n))
  <|> ((nameP s).map (fun p => (p.1, Expr.Column none p.2)))
  <|> (do
    let (s1, q) ← nameP s
    let (s2, _) ← pchar '.' s1
    let (s3, _) ← pchar '*' s2
    pure (s3, Expr.Wildcard (some q)))
  <|> ((pchar '*' s).map (fun p => (p.1, Expr.Wildcard none)))

/-- The comparison-operator alternation of `expr_c` (`parser.rs` lines
235-243), in source order: `=` is `Eq`, `!=` and `<>` are `NotEq`, `<` is
`Lt`, then the `LtEq` branch is wired to the token `"<"` as in the source,
`>` is `Gt`, and `>=` is `GtEq`. -/
def comparisonOp (s : PIn) : Option (PIn × BinaryOperator) :=
  ((ptag (("=").data) s).map (fun p => (p.1, BinaryOperator.Eq)))
  <|> ((ptag (("!=").data) s).map (fun p => (p.1, BinaryOperator.NotEq)))
  <|> ((ptag (("<>").data) s).map (fun p => (p.1, BinaryOperator.NotEq)))
  <|> ((ptag (("<").data) s).map (fun p => (p.1, BinaryOperator.Lt)))
  <|> ((ptag (("<").data) s).map (fun p => (p.1, BinaryOperator.LtEq)))
  <|> ((ptag ((">").data) s).map (fun p => (p.1, BinaryOperator.Gt)))
  <|> ((ptag ((">=").data) s).map (fun p => (p.1, BinaryOperator.GtEq)))

/-- The additive-operator alternation of `expr_d` (`parser.rs` lines
252-256). -/
def additiveOp (s : PIn) : Option (PIn × BinaryOperator) :=
  ((pchar '+' s).map (fun p => (p.1, BinaryOperator.Plus)))
  <|> ((pchar '-' s).map (fun p => (p.1, BinaryOperator.Minus)))

/-- The multiplicative-operator alternation of `expr_e` (`parser.rs` lines
264-268). -/
def multiplicativeOp (s : PIn) : Option (PIn × BinaryOperator) :=
  ((pchar '*' s).map (fun p => (p.1, BinaryOperator.Multiply)))
  <|> ((pchar '/' s).map (fun p => (p.1, BinaryOperator.Divide)))

/-- Embedding of `parse_expr` (`parser.rs` lines 273-279): left-fold the collected
`(operator, rhs)` pairs into a left-associative binary tree. -/
def parse_expr (e : Expr) (rem : List (BinaryOperator × Expr)) : Expr :=
  rem.foldl (fun lhs p => Expr.Binary p.1 lhs p.2) e

mutual

/-- Embedding of `expr_a` (`parser.rs` lines 214-221): the `OR` tier.  All parsers in this
mutual block take a fuel bound on recursion depth; the entry point supplies
more than enough fuel for its input, so the bound never binds on the concrete
runs below. -/
def expr_a : Nat → PIn → Option (PIn × Expr)
  | 0, _ => none
  | fuel + 1, s => do
      let (s1, lhs) ← expr_b fuel s
      let (s2, rem) := expr_a_loop fuel s1
      pure (s2, parse_expr lhs rem)

/-- The `many0` loop of `expr_a`: `value(Or, tag_no_case("or"))` then
`expr_b`. -/
def expr_a_loop : Nat → PIn → PIn × List (BinaryOperator × Expr)
  | 0, s => (s, [])
  | fuel + 1, s =>
      match (do
        let (s1, _) ← ptagNoCase (("or").data) s
        let (s2, e) ← expr_b fuel s1
        pure (s2, e) : Option (PIn × Expr)) with
      | some (s2, e) =>
          let (s3, rest) := expr_a_loop fuel s2
          (s3, (BinaryOperator.Or, e) :: rest)
      | none => (s, [])

/-- Embedding of `expr_b` (`parser.rs` lines 223-230): the `AND` tier. -/
def expr_b : Nat → PIn → Option (PIn × Expr)
  | 0, _ => none
  | fuel + 1, s => do
      let (s1, lhs) ← expr_c fuel s
      let (s2, rem) := expr_b_loop fuel s1
      pure (s2, parse_expr lhs rem)

/-- The `many0` loop of `expr_b`: as in the source, the tag `and` is paired
with the operator constant `Or` (`value(BinaryOperator::Or,
tag_no_case("and"))`, `parser.rs` line 226). -/
def expr_b_loop : Nat → PIn → PIn × List (BinaryOperator × Expr)
  | 0, s => (s, [])
  | fuel + 1, s =>
      match (do
        let (s1, _) ← ptagNoCase (("and").data) s
        let (s2, e) ← expr_c fuel s1
        pure (s2, e) : Option (PIn × Expr)) with
      | some (s2, e) =>
          let (s3, rest) := expr_b_loop fuel s2
          (s3, (BinaryOperator.Or, e) :: rest)
      | none => (s, [])

/-- Embedding of `expr_c` (`parser.rs` lines 232-247): the comparison tier. -/
def expr_c : Nat → PIn → Option (PIn × Expr)
  | 0, _ => none
  | fuel + 1, s => do
      let (s1, lhs) ← expr_d fuel s
      let (s2, rem) := expr_c_loop fuel s1
      pure (s2, parse_expr lhs rem)

/-- The `many0` loop of `expr_c`. -/
def expr_c_loop : Nat → PIn → PIn × List (BinaryOperator × Expr)
  | 0, s => (s, [])
  | fuel + 1, s =>
      match (do
        let (s1, op) ← comparisonOp s
        let (s2, e) ← expr_d fuel s1
        pure (s2, (op, e)) : Option (PIn × (BinaryOperator × Expr))) with
      | some (s2, oe) =>
          let (s3, rest) := expr_c_loop fuel s2
          (s3, oe :: rest)
      | none => (s, [])

/-- Embedding of `expr_d` (`parser.rs` lines 249-259): the additive tier. -/
def expr_d : Nat → PIn → Option (PIn × Expr)
  | 0, _ => none
  | fuel + 1, s => do
      let (s1, lhs) ← expr_e fuel s
      let (s2, rem) := expr_d_loop fuel s1
      pure (s2, parse_expr lhs rem)

/-- The `many0` loop of `expr_d`. -/
def expr_d_loop : Nat → PIn → PIn × List (BinaryOperator × Expr)
  | 0, s => (s, [])
  | fuel + 1, s =>
      match (do
        let (s1, op) ← additiveOp s
        let (s2, e) ← expr_e fuel s1
        pure (s2, (op, e)) : Option (PIn × (BinaryOperator × Expr))) with
      | some (s2, oe) =>
          let (s3, rest) := expr_d_loop fuel s2
          (s3, oe :: rest)
      | none => (s, [])

/-- Embedding of `expr_e` (`parser.rs` lines 261-271): the multiplicative tier. -/
def expr_e : Nat → PIn → Option (PIn × Expr)
  | 0, _ => none
  | fuel + 1, s => do
      let (s1, lhs) ← expr_primitive fuel s
      let (s2, rem) := expr_e_loop fuel s1
      pure (s2, parse_expr lhs rem)

/-- The `many0` loop of `expr_e`. -/
def expr_e_loop : Nat → PIn → PIn × List (BinaryOperator × Expr)
  | 0, s => (s, [])
  | fuel + 1, s =>
      match (do
        let (s1, op) ← multiplicativeOp s
        let (s2, e) ← expr_primitive fuel s1
        pure (s2, (op, e)) : Option (PIn × (BinaryOperator × Expr))) with
      | some (s2, oe) =>
          let (s3, rest) := expr_e_loop fuel s2
          (s3, oe :: rest)
      | none => (s, [])

/-- Embedding of `expr_primitive` (`parser.rs` lines 188-201): surrounding whitespace,
then — in order — parentheses, unary, call, literal, column. -/
def expr_primitive : Nat → PIn → Option (PIn × Expr)
  | 0, _ => none
  | fuel + 1, s =>
      let s1 := spD s
      let r :=
        (parensP fuel s1)
        <|> (expr_unary fuel s1)
        <|> (expr_call fuel s1)
        <|> ((literalP s1).map (fun p => (p.1, Expr.Literal p.2)))
        <|> (columnP s1)
      match r with
      | some (s2, e) => some (spD s2, e)
      | none => none

/-- The parenthesised alternative of `expr_primitive` (`parser.rs` lines
189-192). -/
def parensP : Nat → PIn → Option (PIn × Expr)
  | 0, _ => none
  | fuel + 1, s => do
      let (s1, _) ← pchar '(' s
      let s1 := spD s1
      let (s2, e) ← expr_a fuel s1
      let s2 := spD s2
      let (s3, _) ← pchar ')' s2
      pure (s3, e)

/-- Embedding of `expr_unary` (`parser.rs` lines 203-212): `not` or `-`, whitespace, then a
full expression. -/
def expr_unary : Nat → PIn → Option (PIn × Expr)
  | 0, _ => none
  | fuel + 1, s => do
      let (s1, op) ←
        ((ptagNoCase (("not").data) s).map (fun p => (p.1, UnaryOperator.Not)))
        <|> ((pchar '-' s).map (fun p => (p.1, UnaryOperator.Neg)))
      let s1 := spD s1
      let (s2, e) ← expr_a fuel s1
      pure (s2, Expr.Unary op e)

/-- Embedding of `expr_call` (`parser.rs` lines 167-186): an optionally namespaced function
name, whitespace, an argument list in parentheses. -/
def expr_call : Nat → PIn → Option (PIn × Expr)
  | 0, _ => none
  | fuel + 1, s => do
      let (s1, nsname) ← (do
          let (sa, n1) ← identP s
          let (sb, _) ← pchar '.' sa
          let (sc, n2) ← identP sb
          pure (sc, (some n1, n2)) : Option (PIn × (Option PIn × PIn)))
        <|> ((identP s).map (fun p => (p.1, ((none : Option PIn), p.2))))
      let s1 := spD s1
      let (s2, _) ← pchar '(' s1
      let s2 := spD s2
      let (s3, args) := call_args fuel s2
      let s4 := spD s3
      let (s5, _) ← pchar ')' s4
      pure (s5, Expr.Call nsname.1 nsname.2 args)

/-- Embedding of `separated_list0(char(','), delimited(sp, expr, sp))` for call arguments:
an empty list when the first element fails. -/
def call_args : Nat → PIn → PIn × List Expr
  | 0, s => (s, [])
  | fuel + 1, s =>
      match (do
        let s1 := spD s
        let (s2, e) ← expr_a fuel s1
        pure (spD s2, e) : Option (PIn × Expr)) with
      | none => (s, [])
      | some (s2, e) =>
          let (s3, rest) := call_args_more fuel s2
          (s3, e :: rest)

/-- The separator loop of `separated_list0`: on a comma whose following
element fails, the comma is left unconsumed and the list ends. -/
def call_args_more : Nat → PIn → PIn × List Expr
  | 0, s => (s, [])
  | fuel + 1, s =>
      match pchar ',' s with
      | none => (s, [])
      | some (s1, _) =>
          match (do
            let sa := spD s1
            let (sb, e) ← expr_a fuel sa
            pure (spD sb, e) : Option (PIn × Expr)) with
          | none => (s, [])
          | some (s2, e) =>
              let (s3, rest) := call_args_more fuel s2
              (s3, e :: rest)

end

/-- Embedding of `expr` (`parser.rs` lines 163-165): the entry point, with fuel amply
larger than any recursion depth reachable on the given input. -/
def exprParse (s : PIn) : Option (PIn × Expr) :=
  expr_a (8 * (s.length + 1)) s

/-- Recognizer for the source regex `^-?(\d+)$` (`INTEGER_RE` in
`csv_reader.rs` line 169). -/
def isIntegerLit (s : String) : Bool :=
  match s.data with
  | '-' :: rest => (!rest.isEmpty) && rest.all Char.isDigit
  | cs => (!cs.isEmpty) && cs.all Char.isDigit

/-- Recognizer for `\d+\.\d+` against a full character list. -/
def isUnsignedDecimal (cs : List Char) : Bool :=
  let d1 := cs.takeWhile Char.isDigit
  let rest := cs.drop d1.length
  (!d1.isEmpty) &&
    match rest with
    | '.' :: tail => (!tail.isEmpty) && tail.all Char.isDigit
    | _ => false

/-- Recognizer for the source regex `^-?(\d+\.\d+)$` (`DECIMAL_RE` in
`csv_reader.rs` line 168). -/
def isDecimalLit (s : String) : Bool :=
  match s.data with
  | '-' :: rest => isUnsignedDecimal rest
  | cs => isUnsignedDecimal cs

/-- Recognizer for the case-insensitive source regex `^(true)$|^(false)$`
(`BOOLEAN_RE` in `csv_reader.rs` lines 170-175). -/
def isBooleanLit (s : String) : Bool :=
  let l := s.data.map Char.toLower
  l = ("true").data || l = ("false").data

/-- Embedding of `infer_field_schema` (`csv_reader.rs` lines 167-189): a value beginning
with a double quote is a `String`; otherwise booleans, then decimals, then
integers are recognised in that order; everything else is a `String`. -/
def infer_field_schema (s : String) : DataType :=
  if s.data.head? = some '"' then DataType.String
  else if isBooleanLit s then DataType.Boolean
  else if isDecimalLit s then DataType.Float64
  else if isIntegerLit s then DataType.Int64
  else DataType.String

/-- Insert a type tag into an observed-tag set (`HashSet::insert`, modelled as
a duplicate-free list in insertion order). -/
def tinsert (l : List DataType) (t : DataType) : List DataType :=
  if t ∈ l then l else l ++ [t]

/-- The per-column tag collection pass of `CsvOptions::infer_schema`
(`csv_reader.rs` lines 82-92): over every record, insert the inferred tag of
cell `i` when the record has one. -/
def inferColumnTags (records : List (List String)) (i : Nat) : List DataType :=
  records.foldl
    (fun acc r =>
      match r.get? i with
      | some s => tinsert acc (infer_field_schema s)
      | none => acc)
    []

/-- The per-column resolution of `CsvOptions::infer_schema` (`csv_reader.rs`
lines 94-115): a singleton tag set resolves to its sole element; a two-element
set containing both `Int64` and `Float64` resolves to `Float64` and any other
two-element set to `String`; any other size (empty, or three or more) resolves
to `String`. -/
def resolveColumn : List DataType → DataType
  | [t] => t
  | [a, b] =>
      if DataType.Int64 ∈ [a, b] ∧ DataType.Float64 ∈ [a, b]
      then DataType.Float64 else DataType.String
  | _ => DataType.String

/-- Embedding of `CsvOptions::infer_schema` (`csv_reader.rs` lines 61-118), at the level of
already-split records: one pass collecting per-column tag sets, then one
resolution per column.  (Header naming and the csv crate's splitting are
external and omitted.) -/
def infer_schema (ncols : Nat) (records : List (List String)) : List DataType :=
  (List.range ncols).map (fun i => resolveColumn (inferColumnTags records i))

/-! ## Concrete scenarios used by the theorems -/

/-- A manager for `count(*)` over `Fixed{1000}` windows with no grouping: the
output schema is the count column plus the trailing window-start timestamp
column, and the time column of the input is column 0. -/
def mCount : AggregateManager :=
  { schema := [DataType.Int64, DataType.Timestamp]
    group_exprs := []
    aggr_exprs := [⟨ExprKind.count, 0⟩]
    window := Window.Fixed 1000
    time_idx := 0
    windows := [] }

/-- A batch with no rows (one empty timestamp column). -/
def dsEmptyBatch : DataSet := ⟨[DataType.Timestamp], [[]]⟩

/-- A batch holding the single late row with event time `t = 100`. -/
def dsLateRow : DataSet := ⟨[DataType.Timestamp], [[Scalar.Timestamp 100]]⟩

/-- The output dataset the aggregate emits for the late row: one counted row
in the window starting at 0. -/
def dsLateOut : DataSet :=
  ⟨[DataType.Int64, DataType.Timestamp], [[Scalar.Int64 1], [Scalar.Timestamp 0]]⟩

/-- An open `Fixed{1000}` window state starting at `s` with one counted row in
its single group. -/
def wsAt (s : Int) : WindowState :=
  ⟨s, s + 1000, [([], ⟨[⟨ExprKind.count, 1⟩], [Scalar.Int64 1]⟩)]⟩

/-- The emitted dataset of the drained window starting at `s`: one row with
count 1 and the window-start timestamp. -/
def outAt (s : Int) : DataSet :=
  ⟨[DataType.Int64, DataType.Timestamp], [[Scalar.Int64 1], [Scalar.Timestamp s]]⟩

/-- The count manager with open windows starting at 0, 1000 and 2000. -/
def mThreeWindows : AggregateManager :=
  { mCount with windows := [(0, wsAt 0), (1000, wsAt 1000), (2000, wsAt 2000)] }

/-- A mid-run manager used to exercise the checkpoint round-trip: a grouping
expression whose internal state has evolved, and two open windows with one
group each. -/
def mRoundtrip : AggregateManager :=
  { schema := [DataType.Int64, DataType.Timestamp]
    group_exprs := [⟨ExprKind.col 1, 3⟩]
    aggr_exprs := [⟨ExprKind.count, 0⟩]
    window := Window.Fixed 1000
    time_idx := 0
    windows :=
      [(0, ⟨0, 1000,
        [([Scalar.Int64 7], ⟨[⟨ExprKind.count, 2⟩], [Scalar.Int64 2]⟩)]⟩),
       (1000, ⟨1000, 2000,
        [([Scalar.Int64 8], ⟨[⟨ExprKind.count, 1⟩], [Scalar.Int64 1]⟩)]⟩)] }

/-! ## C1 — late data handling -/

/-- C1, counterexample.  Claim C1 states that an input row with `t = 100`
arriving after watermark 5000 has been observed is silently dropped and
appears in no output.  Running the aggregate operator over exactly that event
sequence — an empty batch carrying watermark 5000, then the late row under the
same watermark — emits one output dataset containing the late row's count in
the window starting at 0, so the claim is false on the code: the drain loop
(`aggregate.rs` lines 178-190) consults only the current batch's watermark and
the manager keeps no memory of past watermarks, hence nothing marks the row as
late. -/
theorem c1_late_row_counterexample :
    aggStreamRun 1 mCount
        [Event.dataSet (some 5000) dsEmptyBatch,
         Event.dataSet (some 5000) dsLateRow] =
      some [Event.dataSet (some 5000) dsLateOut]
    ∧ some [Event.dataSet (some 5000) dsLateOut] ≠
        some ([] : List Event) := by
  constructor
  · decide
  · decide

/-- C1, amended.  A row arriving after its window has closed is not dropped:
processing the late batch re-creates (re-opens) the window state for its
window — here `ingest` rebuilds the window `[0, 1000)` around the `t = 100`
row — and, because the batch watermark 5000 exceeds the window's end time, the
drain loop immediately emits that window again, so the late row is reflected
in an output dataset with window start 0. -/
theorem c1_late_row_reopen_amended :
    mCount.ingest dsLateRow =
      some { mCount with
        windows := [(0, ⟨0, 1000,
          [([], ⟨[⟨ExprKind.count, 1⟩], [Scalar.Int64 1]⟩)]⟩)] }
    ∧ mCount.aggregate dsLateRow (some 5000) = some (mCount, [dsLateOut]) := by
  constructor
  · decide
  · decide

/-! ## C3 — watermark release boundary -/

/-- C3, counterexample.  Claim C3 states that with open windows starting at 0,
1000 and 2000 under `Fixed{1000}`, a batch with watermark `W = 2000` releases
the windows with end ≤ W, i.e. both start 0 and start 1000.  On the code the
drain condition is strictly `W > end_time` (`aggregate.rs` line 181), so the
window starting at 1000 — whose end time is exactly 2000 — is not released:
only the window starting at 0 is emitted and the windows starting at 1000 and
2000 stay open. -/
theorem c3_watermark_release_counterexample :
    mThreeWindows.aggregate dsEmptyBatch (some 2000) =
      some ({ mCount with windows := [(1000, wsAt 1000), (2000, wsAt 2000)] },
        [outAt 0]) := by
  decide

/-- C3, amended.  Processing a batch with watermark `W` releases exactly the
windows with `end_time < W` (strictly): at `W = 2000` only the window starting
at 0 is released, while releasing the windows starting at 0 and 1000 — but not
2000 — takes a watermark strictly greater than 2000, e.g. `W = 2001`. -/
theorem c3_watermark_release_amended :
    mThreeWindows.aggregate dsEmptyBatch (some 2000) =
      some ({ mCount with windows := [(1000, wsAt 1000), (2000, wsAt 2000)] },
        [outAt 0])
    ∧ mThreeWindows.aggregate dsEmptyBatch (some 2001) =
      some ({ mCount with windows := [(2000, wsAt 2000)] },
        [outAt 0, outAt 1000]) := by
  constructor
  · decide
  · decide

/-! ## C6 and C7 — parser operator wiring -/

/-- C6.  Claim C6 states that `a <= b` parses to a `Binary` expression with
operator `LtEq` and `a >= b` to one with `GtEq`.  On the code the `LtEq`
branch of the comparison tier is wired to the token `"<"` (`parser.rs` line
240) and sits behind the identical `Lt` branch, and the `GtEq` branch sits
behind the `Gt` branch whose token `">"` is a prefix of `">="`; consequently
the comparison loop matches the one-character operator, fails to parse `= b`
as its right-hand side, backtracks, and both inputs parse as the bare column
`a` with the whole operator and right-hand side left unconsumed.  This
evaluates the parser at both failing inputs. -/
theorem c6_comparison_token_bug :
    exprParse (("a <= b").data) =
      some ((("<= b").data), Expr.Column none (("a").data))
    ∧ exprParse (("a >= b").data) =
      some (((">= b").data), Expr.Column none (("a").data)) := by
  constructor
  · rfl
  · rfl

/-- C7.  Claim C7 states that `a and b` parses to a `Binary` expression with
operator `And`.  On the code the `AND` tier pairs the tag `and` with the
operator constant `Or` (`value(BinaryOperator::Or, tag_no_case("and"))`,
`parser.rs` line 226), so `a and b` parses to `Binary { op: Or, .. }`.  The
precedence structure itself is as claimed: in `a or b and c` the `and`
grouping binds tighter, though both nodes carry the `Or` tag. -/
theorem c7_and_or_bug :
    exprParse (("a and b").data) =
      some ([], Expr.Binary BinaryOperator.Or
        (Expr.Column none (("a").data)) (Expr.Column none (("b").data)))
    ∧ exprParse (("a or b and c").data) =
      some ([], Expr.Binary BinaryOperator.Or
        (Expr.Column none (("a").data))
        (Expr.Binary BinaryOperator.Or
          (Expr.Column none (("b").data)) (Expr.Column none (("c").data)))) := by
  constructor
  · rfl
  · rfl

/-! ## C9 — CSV schema inference -/

/-- C9, counterexample.  Claim C9 states that any observed-tag set other than
`{Int64}`, `{Float64}` and `{Int64, Float64}` resolves to `String`.  A column
whose single value is `true` has the singleton tag set `{Boolean}`, and the
code's singleton case (`csv_reader.rs` lines 98-103) resolves a singleton set
to its sole element — `Boolean`, not `String`. -/
theorem c9_boolean_column_counterexample :
    infer_schema 1 [[("true")]] = [DataType.Boolean]
    ∧ DataType.Boolean ≠ DataType.String := by
  constructor
  · decide
  · decide

/-- C9, amended.  Per-column resolution: a singleton tag set resolves to its
sole element (so `{Int64}` → `Int64`, `{Float64}` → `Float64`, but equally
`{Boolean}` → `Boolean` and `{String}` → `String`); a two-element set
containing `Int64` and `Float64` resolves to `Float64` and any other
two-element set to `String`; the empty set and sets of three or more resolve
to `String`.  A value beginning with a double quote is always tagged `String`,
and `true`/`false` are recognised as `Boolean` case-insensitively. -/
theorem c9_infer_resolution_amended (t a b : DataType) (l : List DataType)
    (sq sb : String)
    (hab : ¬ (DataType.Int64 ∈ [a, b] ∧ DataType.Float64 ∈ [a, b]))
    (hlen : 3 ≤ l.length) :
    resolveColumn [t] = t
    ∧ resolveColumn [DataType.Int64, DataType.Float64] = DataType.Float64
    ∧ resolveColumn [DataType.Float64, DataType.Int64] = DataType.Float64
    ∧ resolveColumn [a, b] = DataType.String
    ∧ resolveColumn l = DataType.String
    ∧ resolveColumn [] = DataType.String
    ∧ (sq.data.head? = some '"' → infer_field_schema sq = DataType.String)
    ∧ (sb.data.head? ≠ some '"' → isBooleanLit sb = true →
        infer_field_schema sb = DataType.Boolean) := by
  refine ⟨rfl, by decide, by decide, ?_, ?_, rfl, ?_, ?_⟩
  · simp only [resolveColumn, if_neg hab]
  · match l, hlen with
    | _ :: _ :: _ :: _, _ => rfl
  · intro h
    simp only [infer_field_schema, if_pos h]
  · intro h hb
    simp only [infer_field_schema, if_neg h, hb, if_pos rfl, if_true]

/-- C9, witness for the amended theorem at concrete inputs: the tag set
`{Boolean, String}` resolves to `String`, a three-element set resolves to
`String`, a quoted value is tagged `String` and `TRUE` is tagged `Boolean`. -/
theorem c9_infer_resolution_amended_witness :
    resolveColumn [DataType.Boolean] = DataType.Boolean
    ∧ resolveColumn [DataType.Int64, DataType.Float64] = DataType.Float64
    ∧ resolveColumn [DataType.Float64, DataType.Int64] = DataType.Float64
    ∧ resolveColumn [DataType.Boolean, DataType.String] = DataType.String
    ∧ resolveColumn [DataType.Int64, DataType.Float64, DataType.String] =
        DataType.String
    ∧ resolveColumn [] = DataType.String
    ∧ ((("\"x").data).head? = some '"' →
        infer_field_schema ("\"x") = DataType.String)
    ∧ ((("TRUE").data).head? ≠ some '"' → isBooleanLit ("TRUE") = true →
        infer_field_schema ("TRUE") = DataType.Boolean) :=
  c9_infer_resolution_amended DataType.Boolean DataType.Boolean DataType.String
    [DataType.Int64, DataType.Float64, DataType.String] ("\"x") ("TRUE")
    (by decide) (by decide)

/-! ## C5 — checkpoint barrier handling -/

/-- C5.  When the aggregate stream receives `CreateCheckPoint(barrier)`
(`aggregate.rs` lines 310-318), the produced event sequence starts with the
forwarded barrier; the node's serialized state was recorded under its id
exactly when `barrier.is_saved(id)` was false (otherwise the barrier is
forwarded untouched); and when the barrier's exit flag is set the loop breaks,
so no event at all follows the forwarded barrier. -/
theorem c5_checkpoint_event (id : Nat) (m : AggregateManager) (b : Barrier)
    (rest out : List Event)
    (h : aggStreamRun id m (Event.createCheckPoint b :: rest) = some out) :
    ∃ b₂ tail, out = Event.createCheckPoint b₂ :: tail
      ∧ (b.is_saved id = false → b₂ = b.set_state id (some m.save_state))
      ∧ (b.is_saved id = true → b₂ = b)
      ∧ (b.isExit = true → tail = []) := by
  simp only [aggStreamRun] at h
  have hex : (stepBarrier id m b).isExit = b.isExit := by
    unfold stepBarrier
    split <;> rfl
  have hfalse : b.is_saved id = false → stepBarrier id m b =
      b.set_state id (some m.save_state) := by
    intro hf
    unfold stepBarrier
    rw [hf]
    simp
  have htrue : b.is_saved id = true → stepBarrier id m b = b := by
    intro ht
    unfold stepBarrier
    rw [ht]
    simp
  cases he : b.isExit with
  | true =>
      rw [hex, he, if_pos rfl] at h
      exact ⟨stepBarrier id m b, [], (Option.some_inj.mp h).symm, hfalse, htrue,
        fun _ => rfl⟩
  | false =>
      rw [hex, he, if_neg (by decide)] at h
      obtain ⟨tail, _, rfl⟩ := Option.map_eq_some'.mp h
      refine ⟨stepBarrier id m b, tail, rfl, hfalse, htrue, ?_⟩
      intro he2
      exact Bool.noConfusion he2

/-- C5, witness: a fresh barrier with no recorded states and no exit flag fed
to the count manager.  The run forwards the barrier with the manager's state
recorded under node id 7. -/
theorem c5_checkpoint_event_witness :
    ∃ b₂ tail,
      [Event.createCheckPoint (Barrier.set_state ⟨[], false⟩ 7
        (some mCount.save_state))] = Event.createCheckPoint b₂ :: tail
      ∧ (Barrier.is_saved ⟨[], false⟩ 7 = false →
          b₂ = Barrier.set_state ⟨[], false⟩ 7 (some mCount.save_state))
      ∧ (Barrier.is_saved ⟨[], false⟩ 7 = true → b₂ = ⟨[], false⟩)
      ∧ (Barrier.isExit ⟨[], false⟩ = true → tail = []) :=
  c5_checkpoint_event 7 mCount ⟨[], false⟩ []
    [Event.createCheckPoint (Barrier.set_state ⟨[], false⟩ 7
      (some mCount.save_state))] (by decide)

/-! ## C8 — failed restore aborts construction -/

/-- C8.  When `load_state_fn` is configured and yields bytes the state-map
deserialization rejects, `DataStream::try_new` returns the deserialization
error synchronously (`stream.rs` lines 80-85): the failure happens before
`create_stream` runs, so the theorem holds for every downstream pipeline
constructor — no stream is produced and no operator restores any state. -/
theorem c8_truncated_state_fails {α : Type} (bs : List Nat)
    (createStream : List (Nat × List Nat) → Except String α)
    (hbad : decodeStateMap bs = none) :
    DataStream.try_new ⟨some (Except.ok bs)⟩ createStream =
      Except.error ("failed to deserialize stream state.") := by
  simp only [DataStream.try_new, hbad]

/-- C8, witness: the blob `[1]` announces one entry and then ends, so the
decoder fails on truncation and construction errors out for an arbitrary
downstream constructor. -/
theorem c8_truncated_state_fails_witness :
    DataStream.try_new ⟨some (Except.ok [1])⟩
        (fun _ => Except.ok (0 : Nat)) =
      Except.error ("failed to deserialize stream state.") :=
  c8_truncated_state_fails [1] (fun _ => Except.ok (0 : Nat)) (by decide)

/-! ## C10 — the last-element access in `process_dataset` -/

/-- The aggregate expressions `process_dataset` evaluates for a given window
start and group key: the group's own expressions when the group already
exists, else the manager's templates (the freshly created window or group uses
the template clone). -/
def initialAggrExprs (m : AggregateManager) (start : Int) (key : GroupedKey) :
    List PhysicalExpr :=
  match alookup m.windows start with
  | some w =>
      match alookup w.children key with
      | some st => st.aggr_exprs
      | none => m.aggr_exprs
  | none => m.aggr_exprs

/-- Does an expression's evaluation over a dataset succeed with a nonempty
result array? -/
def evalNonempty (ds : DataSet) (e : PhysicalExpr) : Bool :=
  match e.eval ds with
  | some r => !r.2.isEmpty
  | none => false

/-- When every expression in the list evaluates to a nonempty array, the
lockstep update of `process_dataset` succeeds: the last-element access is in
bounds for every expression. -/
theorem updateValues_isSome (ds : DataSet) :
    ∀ (es : List PhysicalExpr) (vs : List Scalar),
      (∀ e ∈ es, evalNonempty ds e = true) →
      (updateValues ds es vs).isSome := by
  intro es
  induction es with
  | nil => intro vs _; cases vs <;> simp [updateValues]
  | cons e es ih =>
      intro vs h
      cases vs with
      | nil => simp [updateValues]
      | cons v vs =>
          have he := h e (by simp)
          unfold evalNonempty at he
          cases hev : e.eval ds with
          | none =>
              simp only [hev] at he
              exact Bool.noConfusion he
          | some r =>
              simp only [hev] at he
              have hr : r.2 ≠ [] := by
                intro hnil
                rw [hnil] at he
                simp at he
              have h2 := ih vs (fun x hx => h x (List.mem_cons_of_mem _ hx))
              obtain ⟨p, hp⟩ := Option.isSome_iff_exists.mp h2
              obtain ⟨lst, hlst⟩ :=
                Option.isSome_iff_exists.mp
                  ((List.getLast?_isSome).mpr hr)
              simp [updateValues, hev, hlst, hp]

/-- The expressions `process_dataset` actually updates are `initialAggrExprs`:
the defaults taken for a missing window or group agree with the definition. -/
theorem initialAggrExprs_spec (m : AggregateManager) (start endT : Int)
    (key : GroupedKey) :
    ((alookup
        ((alookup m.windows start).getD
          { start_time := start, end_time := endT, children := [] }).children
        key).getD
      { aggr_exprs := m.aggr_exprs
        values := List.replicate m.aggr_exprs.length Scalar.Null }).aggr_exprs
      = initialAggrExprs m start key := by
  unfold initialAggrExprs
  cases hw : alookup m.windows start with
  | none => simp [alookup]
  | some w =>
      cases hc : alookup w.children key with
      | none => simp [hc]
      | some st => simp [hc]

/-- C10.  In `process_dataset` every per-group running value is updated to
`array.scalar_value(array.len() - 1)` (`aggregate.rs` line 156).  Under the
hypothesis that every evaluated aggregate expression returns an array of
length at least 1, the index `array.len() - 1` cannot underflow and the
function is total: it returns an updated manager rather than the modelled
panic. -/
theorem c10_process_dataset_total (m : AggregateManager) (start endT : Int)
    (key : GroupedKey) (ds : DataSet)
    (h : ∀ e ∈ initialAggrExprs m start key, evalNonempty ds e = true) :
    (m.process_dataset start endT key ds).isSome := by
  have hrw := initialAggrExprs_spec m start endT key
  have h2 := updateValues_isSome ds _
    ((alookup
        ((alookup m.windows start).getD
          { start_time := start, end_time := endT, children := [] }).children
        key).getD
      { aggr_exprs := m.aggr_exprs
        values := List.replicate m.aggr_exprs.length Scalar.Null }).values
    (fun e he => h e (hrw ▸ he))
  obtain ⟨p, hp⟩ := Option.isSome_iff_exists.mp h2
  simp [AggregateManager.process_dataset, hp]

/-- C10, witness: one batch row against a fresh count manager; the count
expression returns a one-element array, so the update succeeds. -/
theorem c10_process_dataset_total_witness :
    (mCount.process_dataset 0 1000 [] dsLateRow).isSome :=
  c10_process_dataset_total mCount 0 1000 [] dsLateRow (by decide)

/-! ## C2 — the drain loop drains exactly the expired windows -/

/-- End times are monotone along the windows map: every window that appears
earlier (smaller start) ends no later.  This is the invariant every reachable
windows map satisfies for a fixed window policy (`end = start + length` for
`Fixed` and `Sliding`), and it is exactly what makes the break in the drain
loop harmless. -/
abbrev monotoneEnds (l : List (Int × WindowState)) : Prop :=
  List.Pairwise (fun a b => a.2.end_time ≤ b.2.end_time) l

/-- The drain loop is the `takeWhile`/`dropWhile` split of the windows map at
the expiry predicate. -/
theorem drainWindows_eq (W : Int) (l : List (Int × WindowState)) :
    drainWindows W l =
      ((l.takeWhile (fun q => decide (W > q.2.end_time))).map Prod.snd,
       l.dropWhile (fun q => decide (W > q.2.end_time))) := by
  induction l with
  | nil => rfl
  | cons p rest ih =>
      by_cases hp : W > p.2.end_time
      · simp [drainWindows, hp, List.takeWhile_cons, List.dropWhile_cons, ih]
      · simp [drainWindows, hp, List.takeWhile_cons, List.dropWhile_cons]

/-- Over a list pairwise-ordered so that the predicate is closed under moving
left, the `takeWhile`/`dropWhile` split agrees with the two filters. -/
theorem takeWhile_eq_filter_of_mono {α : Type} (p : α → Bool) (l : List α)
    (hmono : List.Pairwise (fun a b => p b = true → p a = true) l) :
    l.takeWhile p = l.filter p
    ∧ l.dropWhile p = l.filter (fun a => !(p a)) := by
  induction l with
  | nil => exact ⟨rfl, rfl⟩
  | cons a l ih =>
      obtain ⟨hhead, htail⟩ := List.pairwise_cons.mp hmono
      obtain ⟨ih1, ih2⟩ := ih htail
      cases hp : p a with
      | false =>
          have hall : ∀ b ∈ l, p b = false := by
            intro b hb
            cases hpb : p b with
            | false => rfl
            | true =>
                have := hhead b hb hpb
                rw [hp] at this
                exact Bool.noConfusion this
          have hfl : List.filter p l = [] :=
            List.filter_eq_nil_iff.mpr (fun b hb => by simp [hall b hb])
          have hfl2 : List.filter (fun x => !(p x)) l = l :=
            List.filter_eq_self.mpr (fun b hb => by simp [hall b hb])
          constructor
          · simp [List.takeWhile_cons, List.filter_cons, hp, hfl]
          · simp [List.dropWhile_cons, List.filter_cons, hp, hfl2]
      | true =>
          constructor
          · simp [List.takeWhile_cons, List.filter_cons, hp, ih1]
          · simp [List.dropWhile_cons, List.filter_cons, hp, ih2]

/-- C2.  After ingesting a batch (`ingest` is the grouping phase of
`AggregateManager::aggregate`, producing the post-insertion windows map `m₁`),
a batch watermark `W` makes `aggregate` remove exactly the window states with
`W > end_time` and emit, in the map's ascending start-time order, one output
dataset per removed window, built by `buildOutput` — each window's children in
map iteration order plus the `start_time` timestamp column; the surviving map
is exactly the non-expired remainder.  With watermark `None` nothing is
removed and nothing is emitted.  The hypotheses are the reachable-state
invariants of the windows map: ascending start keys and (for a fixed window
policy) end times monotone in the start, which is what lets the drain loop's
early break coincide with the full expiry filter. -/
theorem c2_aggregate_drain (m m₁ : AggregateManager) (ds : DataSet) (W : Int)
    (hing : m.ingest ds = some m₁)
    (hmono : monotoneEnds m₁.windows)
    (hsort : List.Pairwise (fun a b => a.1 < b.1) m₁.windows) :
    m.aggregate ds (some W) =
      (((m₁.windows.filter (fun q => decide (W > q.2.end_time))).map
          Prod.snd).mapM (buildOutput m₁.schema m₁.aggr_exprs.length)).map
        (fun outs =>
          ({ m₁ with windows :=
              m₁.windows.filter (fun q => !(decide (W > q.2.end_time))) },
           outs))
    ∧ m.aggregate ds none = some (m₁, [])
    ∧ List.Pairwise (fun a b => a.1 < b.1)
        (m₁.windows.filter (fun q => decide (W > q.2.end_time))) := by
  have hpair : List.Pairwise
      (fun a b : Int × WindowState =>
        decide (W > b.2.end_time) = true → decide (W > a.2.end_time) = true)
      m₁.windows := by
    refine hmono.imp ?_
    intro a b hab hb
    have hb' : W > b.2.end_time := of_decide_eq_true hb
    exact decide_eq_true (lt_of_le_of_lt hab hb')
  obtain ⟨htw, hdw⟩ := takeWhile_eq_filter_of_mono
    (fun q => decide (W > q.2.end_time)) m₁.windows hpair
  refine ⟨?_, ?_, ?_⟩
  · unfold AggregateManager.aggregate
    rw [hing]
    simp only [drainWindows_eq, htw, hdw]
    cases hmapM : ((m₁.windows.filter
        (fun q => decide (W > q.2.end_time))).map Prod.snd).mapM
        (buildOutput m₁.schema m₁.aggr_exprs.length) with
    | none => simp [hmapM]
    | some outs => simp [hmapM]
  · unfold AggregateManager.aggregate
    rw [hing]
    rfl
  · exact hsort.sublist (List.filter_sublist _)

/-- C2, witness: the three-window count manager and an empty batch with
watermark 2000 — only the first window is expired; the filters, the mapM of
`buildOutput` and both aggregate runs evaluate concretely. -/
theorem c2_aggregate_drain_witness :
    mThreeWindows.aggregate dsEmptyBatch (some 2000) =
      (((mThreeWindows.windows.filter
          (fun q => decide ((2000 : Int) > q.2.end_time))).map
          Prod.snd).mapM
        (buildOutput mThreeWindows.schema
          mThreeWindows.aggr_exprs.length)).map
        (fun outs =>
          ({ mThreeWindows with
              windows := mThreeWindows.windows.filter (fun q => !(decide ((2000 : Int) > q.2.end_time))) },
           outs))
    ∧ mThreeWindows.aggregate dsEmptyBatch none = some (mThreeWindows, [])
    ∧ List.Pairwise (fun a b => a.1 < b.1)
        (mThreeWindows.windows.filter
          (fun q => decide ((2000 : Int) > q.2.end_time))) :=
  c2_aggregate_drain mThreeWindows mThreeWindows dsEmptyBatch 2000
    (by decide) (by decide) (by decide)

/-! ## C4 — checkpoint round-trip -/

/-- Decoding inverts the accumulator encoding. -/
theorem decodeInt_encodeInt (i : Int) : decodeInt (encodeInt i) = some i := by
  cases i <;> rfl

/-- Loading a saved expression state into an expression of the same kind
reproduces the saved expression: `load_state` inverts `save_state`. -/
theorem load_state_save_state (e f : PhysicalExpr) (h : e.kind = f.kind) :
    e.load_state f.save_state = some f := by
  unfold PhysicalExpr.load_state PhysicalExpr.save_state
  rw [decodeInt_encodeInt]
  cases e
  cases f
  simp_all

/-- The lockstep expression loading inverts the lockstep saving whenever the
target expressions have the saved expressions' kinds. -/
theorem loadExprs_roundtrip : ∀ (es fs : List PhysicalExpr),
    es.map PhysicalExpr.kind = fs.map PhysicalExpr.kind →
    loadExprs es (fs.map PhysicalExpr.save_state) = some fs := by
  intro es
  induction es with
  | nil =>
      intro fs h
      cases fs with
      | nil => rfl
      | cons f fs => simp at h
  | cons e es ih =>
      intro fs h
      cases fs with
      | nil => simp at h
      | cons f fs =>
          simp only [List.map_cons, List.cons.injEq] at h
          simp [loadExprs, load_state_save_state e f h.1, ih fs h.2]

/-- Lookup distributes over append. -/
theorem alookup_append {α β : Type} [DecidableEq α] :
    ∀ (l₁ l₂ : List (α × β)) (k : α),
      alookup (l₁ ++ l₂) k =
        match alookup l₁ k with
        | some v => some v
        | none => alookup l₂ k := by
  intro l₁ l₂ k
  induction l₁ with
  | nil => rfl
  | cons p t ih =>
      by_cases hp : p.1 = k
      · simp [alookup, hp]
      · simp [alookup, hp, ih]

/-- Upserting an absent key appends the binding. -/
theorem aupsert_append {α β : Type} [DecidableEq α] :
    ∀ (l : List (α × β)) (k : α) (v : β),
      alookup l k = none → aupsert l k v = l ++ [(k, v)] := by
  intro l k v
  induction l with
  | nil => intro _; rfl
  | cons p t ih =>
      intro h
      unfold alookup at h
      by_cases hp : p.1 = k
      · rw [if_pos hp] at h; cases h
      · rw [if_neg hp] at h
        simp [aupsert, hp, ih h]

/-- Rebuilding a window's children map from its saved groups reproduces the
original children list, for every starting accumulator disjoint from the saved
keys: each group's expressions reload into the template clone because their
kinds agree, the values are taken verbatim, and the upserts append in saved
order. -/
theorem loadGroups_roundtrip (A : List PhysicalExpr) :
    ∀ (cs acc : List (GroupedKey × AggregateState)),
      (∀ c ∈ cs, alookup acc c.1 = none) →
      (cs.map Prod.fst).Nodup →
      (∀ c ∈ cs, c.2.aggr_exprs.map PhysicalExpr.kind =
        A.map PhysicalExpr.kind) →
      loadGroups A acc (cs.map (fun c =>
        (c.1, c.2.aggr_exprs.map PhysicalExpr.save_state, c.2.values))) =
        some (acc ++ cs) := by
  intro cs
  induction cs with
  | nil =>
      intro acc _ _ _
      simp [loadGroups]
  | cons c cs ih =>
      intro acc hacc hnodup hkinds
      have hA : A.map PhysicalExpr.kind =
          c.2.aggr_exprs.map PhysicalExpr.kind :=
        (hkinds c (List.mem_cons_self c cs)).symm
      have hload : loadExprs A
          (c.2.aggr_exprs.map PhysicalExpr.save_state) = some c.2.aggr_exprs :=
        loadExprs_roundtrip A c.2.aggr_exprs hA
      have hhead : c.1 ∉ cs.map Prod.fst :=
        (List.nodup_cons.mp hnodup).1
      have hup : aupsert acc c.1 (⟨c.2.aggr_exprs, c.2.values⟩ : AggregateState)
          = acc ++ [(c.1, c.2)] := by
        have : (⟨c.2.aggr_exprs, c.2.values⟩ : AggregateState) = c.2 := rfl
        rw [this]
        exact aupsert_append acc c.1 c.2 (hacc c (List.mem_cons_self c cs))
      have hrest := ih (acc ++ [(c.1, c.2)])
        (fun d hd => by
          rw [alookup_append]
          rw [hacc d (List.mem_cons_of_mem c hd)]
          have hne : c.1 ≠ d.1 := by
            intro he
            exact hhead (by rw [he]; exact List.mem_map_of_mem Prod.fst hd)
          simp [alookup, hne])
        (List.nodup_cons.mp hnodup).2
        (fun d hd => hkinds d (List.mem_cons_of_mem c hd))
      simp only [List.map_cons]
      rw [loadGroups]
      rw [hload]
      show loadGroups A (aupsert acc c.1 ⟨c.2.aggr_exprs, c.2.values⟩) _ = _
      rw [hup, hrest]
      simp

/-- Inserting a key greater than every key of a sorted association list
appends the binding. -/
theorem insertSorted_append {β : Type} :
    ∀ (l : List (Int × β)) (k : Int) (v : β),
      (∀ q ∈ l, q.1 < k) → insertSorted l k v = l ++ [(k, v)] := by
  intro l k v
  induction l with
  | nil => intro _; rfl
  | cons p t ih =>
      intro h
      have hp := h p (List.mem_cons_self p t)
      unfold insertSorted
      rw [if_neg (by omega), if_neg (by omega)]
      rw [ih (fun q hq => h q (List.mem_cons_of_mem p hq))]
      rfl

/-- Rebuilding and inserting every saved window reproduces the original
windows map: windows are saved in ascending start order, so each insertion
appends at the end. -/
theorem loadWindows_roundtrip :
    ∀ (ws : List (Int × WindowState)) (m₀ : AggregateManager),
      List.Pairwise (fun a b => a.1 < b.1) (m₀.windows ++ ws) →
      (∀ p ∈ ws, p.2.start_time = p.1) →
      (∀ p ∈ ws, (p.2.children.map Prod.fst).Nodup) →
      (∀ p ∈ ws, ∀ c ∈ p.2.children,
        c.2.aggr_exprs.map PhysicalExpr.kind =
          m₀.aggr_exprs.map PhysicalExpr.kind) →
      loadWindows m₀ (ws.map (fun p =>
        (p.1, p.2.end_time, p.2.children.map (fun c =>
          (c.1, c.2.aggr_exprs.map PhysicalExpr.save_state, c.2.values))))) =
        some { m₀ with windows := m₀.windows ++ ws } := by
  intro ws
  induction ws with
  | nil =>
      intro m₀ _ _ _ _
      simp [loadWindows]
  | cons p ws ih =>
      intro m₀ hsort hkey hnodup hkinds
      have hgroups : loadGroups m₀.aggr_exprs []
          (p.2.children.map (fun c =>
            (c.1, c.2.aggr_exprs.map PhysicalExpr.save_state, c.2.values))) =
          some p.2.children := by
        have := loadGroups_roundtrip m₀.aggr_exprs p.2.children []
          (fun c _ => rfl)
          (hnodup p (List.mem_cons_self p ws))
          (fun c hc => hkinds p (List.mem_cons_self p ws) c hc)
        simpa using this
      have hwin : (⟨p.1, p.2.end_time, p.2.children⟩ : WindowState) = p.2 := by
        have hk := hkey p (List.mem_cons_self p ws)
        rw [← hk]
      have hlt : ∀ q ∈ m₀.windows, q.1 < p.1 := by
        intro q hq
        exact (List.pairwise_append.mp hsort).2.2 q hq p
          (List.mem_cons_self p ws)
      have hins : insertSorted m₀.windows p.1 p.2 = m₀.windows ++ [p] := by
        rw [insertSorted_append m₀.windows p.1 p.2 hlt]
      have hrest := ih { m₀ with windows := m₀.windows ++ [p] }
        (by
          show List.Pairwise _ ((m₀.windows ++ [p]) ++ ws)
          rw [List.append_assoc, List.singleton_append]
          exact hsort)
        (fun q hq => hkey q (List.mem_cons_of_mem p hq))
        (fun q hq => hnodup q (List.mem_cons_of_mem p hq))
        (fun q hq c hc => hkinds q (List.mem_cons_of_mem p hq) c hc)
      simp only [List.map_cons]
      rw [loadWindows]
      rw [hgroups]
      show loadWindows
        { m₀ with windows :=
            insertSorted m₀.windows p.1 ⟨p.1, p.2.end_time, p.2.children⟩ }
        _ = _
      rw [hwin, hins, hrest]
      simp [List.append_assoc]

/-- C4.  Round-trip of the aggregate checkpoint state: loading the bytes of
`m.save_state()` into a freshly constructed manager — same schema, same
expressions (the group expression templates `g₀` agree with `m`'s group
expressions up to their internal state), same window policy and time index,
empty windows map — reconstructs the manager exactly: every window's start and
end time, and per group key the stored running values and expression states,
coincide with `m`'s, so every subsequent emission of the restored manager
equals that of the uninterrupted `m`.  The hypotheses beyond the claim's own
(per-expression `load_state` inverting `save_state` is here the proved
`load_state_save_state`) are the invariants every reachable manager satisfies:
ascending window keys, each window's `start_time` equal to its key, distinct
group keys per window, and per-group expressions of the template's kinds. -/
theorem c4_checkpoint_roundtrip (m : AggregateManager)
    (g₀ : List PhysicalExpr)
    (hg : g₀.map PhysicalExpr.kind = m.group_exprs.map PhysicalExpr.kind)
    (hsort : List.Pairwise (fun a b => a.1 < b.1) m.windows)
    (hkey : ∀ p ∈ m.windows, p.2.start_time = p.1)
    (hnodup : ∀ p ∈ m.windows, (p.2.children.map Prod.fst).Nodup)
    (hkinds : ∀ p ∈ m.windows, ∀ c ∈ p.2.children,
      c.2.aggr_exprs.map PhysicalExpr.kind =
        m.aggr_exprs.map PhysicalExpr.kind) :
    AggregateManager.load_state { m with windows := [], group_exprs := g₀ }
      m.save_state = some m := by
  unfold AggregateManager.load_state AggregateManager.save_state
  rw [loadExprs_roundtrip g₀ m.group_exprs hg]
  have := loadWindows_roundtrip m.windows
    { m with windows := [], group_exprs := m.group_exprs }
    (by simpa using hsort) hkey hnodup hkinds
  simpa using this

/-- C4, witness: a manager holding two windows with one group each, its group
expression evolved away from the fresh template `g₀` (same kind, different
internal state); the restore from the saved state is exactly the original
manager. -/
theorem c4_checkpoint_roundtrip_witness :
    AggregateManager.load_state
      { mRoundtrip with windows := [], group_exprs := [⟨ExprKind.col 1, 99⟩] }
      mRoundtrip.save_state = some mRoundtrip :=
  c4_checkpoint_roundtrip mRoundtrip [⟨ExprKind.col 1, 99⟩]
    (by decide) (by decide) (by decide) (by decide) (by decide)

end Yql
